import Mathlib

/-!
# Verification of the codex_team coordination core

Shallow embedding of the `codex_team` Python package (message bus, Codex
bridge protocol handling, orchestrator plan extraction and workflow
assignment, specialist step loop), with theorems settling the frozen claims
about its specification.

Conventions of the embedding:
* Python `json.loads` is modelled by `jsonLoads` over a `Json` value type.
  Objects keep their entries in textual order; lookup takes the last
  occurrence of a repeated key, as Python dict construction does.  The
  `NaN` / `Infinity` / `-Infinity` extensions accepted by Python's default
  decoder are represented by dedicated constructors.  Unicode surrogate-pair
  combination in `\uXXXX` escapes is not modelled (no claim exercises it).
* Python exceptions are modelled as `Except String` / `Option String`
  carrying the message text; exception class distinctions that a claim
  needs (bridge `CodexError` versus interpreter errors such as
  `AttributeError`) are modelled structurally where required.
* `async` methods are modelled as pure state-passing functions; the
  per-agent sequential task structure of the source (one drain task per
  specialist, one lock-serialised bridge) justifies a sequential trace
  semantics for the event-ordering claims.
-/

/-- JSON-like values as produced by Python's `json.loads`.  Numbers are kept
as `m * 10 ^ e` (mantissa/decimal exponent); the int/float distinction of
Python is not tracked. -/
inductive Json where
  | null
  | bool (b : Bool)
  | num (m : Int) (e : Int)
  | nan
  | inf (neg : Bool)
  | str (s : String)
  | arr (elems : List Json)
  | obj (entries : List (String × Json))

/-- Python dict lookup on a parsed object: the last occurrence of a key wins,
matching dict construction from a key/value sequence. -/
def dictGet (entries : List (String × Json)) (k : String) : Option Json :=
  match entries with
  | [] => none
  | (k', v) :: rest =>
    match dictGet rest k with
    | some w => some w
    | none => if k' = k then some v else none

/-- Python truthiness (`bool(x)`) of a decoded JSON value. -/
def pyTruthy : Json → Bool
  | .null => false
  | .bool b => b
  | .num m _ => m != 0
  | .nan => true
  | .inf _ => true
  | .str s => s != ""
  | .arr xs => !xs.isEmpty
  | .obj kvs => !kvs.isEmpty

/-! ## The JSON text decoder (`json.loads`) -/

def isWsChar (c : Char) : Bool :=
  c = ' ' || c = '\t' || c = '\n' || c = '\r'

def skipWs : List Char → List Char
  | [] => []
  | c :: cs => if isWsChar c then skipWs cs else c :: cs

def isDigitChar (c : Char) : Bool :=
  '0' ≤ c && c ≤ '9'

def digitVal (c : Char) : Nat := c.toNat - '0'.toNat

/-- Split off a maximal run of leading decimal digits. -/
def takeDigits : List Char → List Char × List Char
  | [] => ([], [])
  | c :: cs =>
    if isDigitChar c then
      let (ds, r) := takeDigits cs
      (c :: ds, r)
    else ([], c :: cs)

def digitsToNat (ds : List Char) : Nat :=
  ds.foldl (fun n c => 10 * n + digitVal c) 0

/-- Parse the optional exponent part of a JSON number and build the value.
`neg` is the sign, `ipart` the integer part, `fds` the fraction digits. -/
def parseExpPart (neg : Bool) (ipart : Nat) (fds : List Char) :
    List Char → Option (Json × List Char)
  | c :: r =>
    let mant : Int :=
      (if neg then -1 else 1) * Int.ofNat (ipart * 10 ^ fds.length + digitsToNat fds)
    if c = 'e' ∨ c = 'E' then
      let (esign, r1) : Int × List Char :=
        match r with
        | '+' :: t => (1, t)
        | '-' :: t => (-1, t)
        | _ => (1, r)
      let (eds, r2) := takeDigits r1
      if eds = [] then none
      else some (.num mant (esign * Int.ofNat (digitsToNat eds) - Int.ofNat fds.length), r2)
    else some (.num mant (-(Int.ofNat fds.length)), c :: r)
  | [] =>
    let mant : Int :=
      (if neg then -1 else 1) * Int.ofNat (ipart * 10 ^ fds.length + digitsToNat fds)
    some (.num mant (-(Int.ofNat fds.length)), [])

/-- Parse a JSON number (strict grammar: no leading zeros, `.` and `e` parts
need at least one digit). -/
def parseNumber (s : List Char) : Option (Json × List Char) :=
  let (neg, s1) : Bool × List Char :=
    match s with
    | '-' :: r => (true, r)
    | _ => (false, s)
  match s1 with
  | [] => none
  | c :: _ =>
    if isDigitChar c then
      let (ids, s2) := takeDigits s1
      if 1 < ids.length ∧ ids.headD '1' = '0' then none
      else
        match s2 with
        | '.' :: r =>
          let (fds, s3) := takeDigits r
          if fds = [] then none else parseExpPart neg (digitsToNat ids) fds s3
        | _ => parseExpPart neg (digitsToNat ids) [] s2
    else none

def escChar (c : Char) : Option Char :=
  if c = '"' then some '"'
  else if c = '\\' then some '\\'
  else if c = '/' then some '/'
  else if c = 'b' then some (Char.ofNat 8)
  else if c = 'f' then some (Char.ofNat 12)
  else if c = 'n' then some '\n'
  else if c = 'r' then some '\r'
  else if c = 't' then some '\t'
  else none

def hexVal (c : Char) : Option Nat :=
  if isDigitChar c then some (digitVal c)
  else if 'a' ≤ c ∧ c ≤ 'f' then some (c.toNat - 'a'.toNat + 10)
  else if 'A' ≤ c ∧ c ≤ 'F' then some (c.toNat - 'A'.toNat + 10)
  else none

/-- Parse the body of a JSON string after the opening quote; returns the
decoded characters and the remainder after the closing quote. -/
def parseStringBody : Nat → List Char → Option (List Char × List Char)
  | 0, _ => none
  | _ + 1, [] => none
  | fuel + 1, c :: rest =>
    if c = '"' then some ([], rest)
    else if c = '\\' then
      match rest with
      | 'u' :: h1 :: h2 :: h3 :: h4 :: rest2 =>
        match hexVal h1, hexVal h2, hexVal h3, hexVal h4 with
        | some a, some b, some c3, some d =>
          (parseStringBody fuel rest2).map
            (fun p => (Char.ofNat (((a * 16 + b) * 16 + c3) * 16 + d) :: p.1, p.2))
        | _, _, _, _ => none
      | e :: rest2 =>
        match escChar e with
        | some ec => (parseStringBody fuel rest2).map (fun p => (ec :: p.1, p.2))
        | none => none
      | [] => none
    else if c.toNat < 32 then none
    else (parseStringBody fuel rest).map (fun p => (c :: p.1, p.2))

/-- Match a literal token at the head of the input. -/
def parseLit (lit : List Char) (s : List Char) : Option (List Char) :=
  if s.take lit.length = lit then some (s.drop lit.length) else none

mutual

/-- Parse one JSON value (with Python's `NaN`/`Infinity` extensions). -/
def parseValue : Nat → List Char → Option (Json × List Char)
  | 0, _ => none
  | fuel + 1, s =>
    match skipWs s with
    | [] => none
    | c :: rest =>
      if c = '\x7b' then
        match skipWs rest with
        | '\x7d' :: r2 => some (.obj [], r2)
        | r2 => (parseMembers fuel r2).map (fun p => (Json.obj p.1, p.2))
      else if c = '[' then
        match skipWs rest with
        | ']' :: r2 => some (.arr [], r2)
        | r2 => (parseElements fuel r2).map (fun p => (Json.arr p.1, p.2))
      else if c = '"' then
        (parseStringBody (rest.length + 1) rest).map (fun p => (Json.str (String.mk p.1), p.2))
      else if c = 't' then
        (parseLit ['r', 'u', 'e'] rest).map (fun r => (Json.bool true, r))
      else if c = 'f' then
        (parseLit ['a', 'l', 's', 'e'] rest).map (fun r => (Json.bool false, r))
      else if c = 'n' then
        (parseLit ['u', 'l', 'l'] rest).map (fun r => (Json.null, r))
      else if c = 'N' then
        (parseLit ['a', 'N'] rest).map (fun r => (Json.nan, r))
      else if c = 'I' then
        (parseLit ['n', 'f', 'i', 'n', 'i', 't', 'y'] rest).map (fun r => (Json.inf false, r))
      else if c = '-' ∧ rest.take 8 = ['I', 'n', 'f', 'i', 'n', 'i', 't', 'y'] then
        some (Json.inf true, rest.drop 8)
      else parseNumber (c :: rest)

/-- Parse the members of a JSON object (input positioned at the first key). -/
def parseMembers : Nat → List Char → Option (List (String × Json) × List Char)
  | 0, _ => none
  | fuel + 1, s =>
    match skipWs s with
    | '"' :: rest =>
      match parseStringBody (rest.length + 1) rest with
      | none => none
      | some (key, r1) =>
        match skipWs r1 with
        | ':' :: r2 =>
          match parseValue fuel r2 with
          | none => none
          | some (v, r3) =>
            match skipWs r3 with
            | ',' :: r4 =>
              (parseMembers fuel r4).map (fun p => ((String.mk key, v) :: p.1, p.2))
            | '\x7d' :: r4 => some ([(String.mk key, v)], r4)
            | _ => none
        | _ => none
    | _ => none

/-- Parse the elements of a JSON array (input positioned at the first
element). -/
def parseElements : Nat → List Char → Option (List Json × List Char)
  | 0, _ => none
  | fuel + 1, s =>
    match parseValue fuel s with
    | none => none
    | some (v, r1) =>
      match skipWs r1 with
      | ',' :: r2 => (parseElements fuel r2).map (fun p => (v :: p.1, p.2))
      | ']' :: r2 => some ([v], r2)
      | _ => none

end

/-- Model of Python's `json.loads`: decode one JSON document, requiring the
whole input to be consumed (up to whitespace); `none` models a
`json.JSONDecodeError`. -/
def jsonLoads (s : String) : Option Json :=
  let cs := s.toList
  match parseValue (4 * cs.length + 16) cs with
  | some (j, rest) => if skipWs rest = [] then some j else none
  | none => none

/-! ## `communication.py`: channels, messages, and the pub/sub bus -/

/-- The closed set of bus channels (`Channel` enum). -/
inductive Channel where
  | status
  | alert
  | plan
  | artifact
  | heartbeat
deriving DecidableEq

/-- The string value of a channel (`Channel.STATUS.value` etc.). -/
def Channel.value : Channel → String
  | .status => "status"
  | .alert => "alert"
  | .plan => "plan"
  | .artifact => "artifact"
  | .heartbeat => "heartbeat"

/-- `Channel(s)` enum lookup by value: `some` on a member value, `none`
modelling the `ValueError`. -/
def channelOfValue (s : String) : Option Channel :=
  if s = "status" then some .status
  else if s = "alert" then some .alert
  else if s = "plan" then some .plan
  else if s = "artifact" then some .artifact
  else if s = "heartbeat" then some .heartbeat
  else none

/-- A message on the bus.  Payloads in this codebase are Python dicts with
string keys; they are embedded as ordered key/value lists of `Json`. -/
structure Message where
  channel : Channel
  sender : String
  payload : List (String × Json)

/-- One subscriber queue registered on the bus, identified by `qid`. -/
structure SubEntry where
  qid : Nat
  channel : Channel
  buf : List Message

/-- State of a `PubSubBus`: the registered subscriber queues plus a counter
supplying fresh queue identities (Python uses object identity of the
`asyncio.Queue`; the counter is its explicit image). -/
structure BusState where
  nextId : Nat
  subs : List SubEntry

/-- The freshly constructed bus: no subscribers on any channel. -/
def BusState.empty : BusState := ⟨0, []⟩

/-- `PubSubBus.publish`: enqueue the message on every queue currently
registered for its channel. -/
def BusState.publish (st : BusState) (m : Message) : BusState :=
  { st with
    subs := st.subs.map fun s =>
      if s.channel = m.channel then { s with buf := s.buf ++ [m] } else s }

/-- `PubSubBus.subscribe`: register a fresh empty queue for the channel and
return its identity. -/
def BusState.subscribe (st : BusState) (c : Channel) : Nat × BusState :=
  (st.nextId, ⟨st.nextId + 1, st.subs ++ [⟨st.nextId, c, []⟩]⟩)

/-- The `finally` block of `PubSubBus.subscribe`: discard the queue. -/
def BusState.unsubscribe (st : BusState) (q : Nat) : BusState :=
  { st with subs := st.subs.filter fun s => s.qid ≠ q }

/-- A subscriber taking one message off its queue (`queue.get()`). -/
def BusState.consume (st : BusState) (q : Nat) : BusState :=
  { st with subs := st.subs.map fun s => if s.qid = q then { s with buf := s.buf.tail } else s }

/-- `PubSubBus.snapshot`: the currently buffered, undelivered messages of
all subscribers of the channel, together with the (unchanged) bus state the
method leaves behind. -/
def BusState.snapshot (st : BusState) (c : Channel) : List Message × BusState :=
  (((st.subs.filter fun s => s.channel = c).map SubEntry.buf).flatten, st)

/-- Messages currently buffered on queue `q`. -/
def BusState.bufOf (st : BusState) (q : Nat) : List Message :=
  ((st.subs.filter fun s => s.qid = q).map SubEntry.buf).flatten

/-- Bus interactions, for stating history-based claims. -/
inductive BusOp where
  | publish (m : Message)
  | subscribe (c : Channel)
  | consume (q : Nat)
  | unsubscribe (q : Nat)

def BusState.runOp (st : BusState) : BusOp → BusState
  | .publish m => st.publish m
  | .subscribe c => (st.subscribe c).2
  | .consume q => st.consume q
  | .unsubscribe q => st.unsubscribe q

def BusState.runOps (st : BusState) (ops : List BusOp) : BusState :=
  ops.foldl BusState.runOp st

/-- Queue identities handed out so far bound everything registered. -/
def BusState.WF (st : BusState) : Prop :=
  ∀ s ∈ st.subs, s.qid < st.nextId

/-! ## `codex_bridge.py`: response handling of `CodexBridge.request` -/

/-- `CodexResponse`: structured response wrapper for Codex CLI calls. -/
structure CodexResponse where
  ok : Bool
  data : Json
  raw : String

/-- Outcome of one `CodexBridge.request` round-trip, as a function of the
response line read from the subprocess.  `codexError` is the
bridge-specific `CodexError`; `pyError` is any other interpreter exception
(here: the `AttributeError` from calling `.get` on a non-dict). -/
inductive ReqOutcome where
  | response (r : CodexResponse)
  | codexError (msg : String)
  | pyError (msg : String)

/-- The response-processing tail of `CodexBridge.request` (lines 106-114):
empty line and undecodable line raise `CodexError`; otherwise
`ok = bool(data.get("ok", False))` — which is an `AttributeError` when the
decoded value is not a dict. -/
def CodexBridge.request (line : String) : ReqOutcome :=
  if line = "" then .codexError "Codex bridge returned empty response"
  else
    match jsonLoads line with
    | none => .codexError ("Invalid JSON from Codex: " ++ line)
    | some data =>
      match data with
      | .obj kvs =>
        .response ⟨((dictGet kvs "ok").map pyTruthy).getD false, .obj kvs, line⟩
      | _ => .pyError "AttributeError: object has no attribute get"

/-! ## `agents/orchestrator.py`: plan data model and plan extraction -/

/-- `SpecialistSpec` dataclass.  Python dataclasses do not check field
types; every payload a claim exercises carries the annotated types, and the
typed embedding below rejects others. -/
structure SpecialistSpec where
  handle : String
  display_name : String
  mission : String
  instructions : String
  check_in_seconds : Int := 300
  capabilities : List String := []
deriving DecidableEq

/-- `WorkflowStep` dataclass: atomic unit of work orchestrated by the team. -/
structure WorkflowStep where
  name : String
  description : String
  role : String
  depends_on : List String := []
deriving DecidableEq

/-- `CommunicationRule` dataclass: check-in cadence and recipients. -/
structure CommunicationRule where
  interval_seconds : Int
  channels : List Channel
deriving DecidableEq

/-- `TeamPlan` dataclass: structured plan emitted by the orchestrator
model. -/
structure TeamPlan where
  mission_brief : String
  roles : List SpecialistSpec
  workflow : List WorkflowStep
  communication : CommunicationRule
deriving DecidableEq

/-- Python iteration over a decoded JSON value (`for x in v`): lists yield
their elements, strings their characters, dicts their keys; other values
raise `TypeError`. -/
def pyIter : Json → Except String (List Json)
  | .arr xs => .ok xs
  | .str s => .ok (s.toList.map fun c => Json.str (String.mk [c]))
  | .obj kvs => .ok (kvs.map fun kv => Json.str kv.1)
  | _ => .error "TypeError: object is not iterable"

/-- Integer division truncating toward zero, as Python `int()` applied to a
float does. -/
def truncDiv (m : Int) (d : Nat) : Int :=
  if 0 ≤ m then Int.ofNat (m.toNat / d) else -Int.ofNat ((-m).toNat / d)

/-- `int(x)` on a decoded JSON value: numbers truncate toward zero, strings
of (optionally signed) digits convert, booleans map to 0/1, everything
else raises. -/
def pyInt : Json → Except String Int
  | .bool b => .ok (if b then 1 else 0)
  | .num m e => .ok (if 0 ≤ e then m * (10 : Int) ^ e.toNat else truncDiv m (10 ^ (-e).toNat))
  | .nan => .error "ValueError: cannot convert float NaN to integer"
  | .inf _ => .error "OverflowError: cannot convert float infinity to integer"
  | .str s =>
    let cs := (s.toList.dropWhile isWsChar).reverse.dropWhile isWsChar |>.reverse
    let (neg, ds) : Bool × List Char :=
      match cs with
      | '-' :: r => (true, r)
      | '+' :: r => (false, r)
      | _ => (false, cs)
    if ds ≠ [] ∧ ds.all isDigitChar then
      .ok ((if neg then -1 else 1) * Int.ofNat (digitsToNat ds))
    else .error ("ValueError: invalid literal for int: " ++ s)
  | _ => .error "TypeError: int() argument must be a string or a number"

/-- A decoded JSON value that must be a Python `str`. -/
def asPyStr : Json → Except String String
  | .str s => .ok s
  | _ => .error "TypeError: expected str"

/-- A decoded JSON value that must be a Python list of `str`. -/
def asPyStrList : Json → Except String (List String)
  | .arr xs => xs.mapM asPyStr
  | _ => .error "TypeError: expected list of str"

/-- `SpecialistSpec(**role)`: keyword construction from a decoded dict.
Unknown keys and missing required keys raise `TypeError`. -/
def specFromJson : Json → Except String SpecialistSpec
  | .obj kvs =>
    if kvs.all fun kv =>
        kv.1 = "handle" ∨ kv.1 = "display_name" ∨ kv.1 = "mission" ∨
        kv.1 = "instructions" ∨ kv.1 = "check_in_seconds" ∨ kv.1 = "capabilities" then
      match dictGet kvs "handle", dictGet kvs "display_name",
          dictGet kvs "mission", dictGet kvs "instructions" with
      | some jh, some jd, some jm, some ji => do
        let h ← asPyStr jh
        let d ← asPyStr jd
        let m ← asPyStr jm
        let i ← asPyStr ji
        let cis ←
          match dictGet kvs "check_in_seconds" with
          | none => .ok (300 : Int)
          | some (.num n e) => if e = 0 then .ok n else .error "TypeError: expected int"
          | some _ => .error "TypeError: expected int"
        let caps ←
          match dictGet kvs "capabilities" with
          | none => .ok ([] : List String)
          | some j => asPyStrList j
        .ok ⟨h, d, m, i, cis, caps⟩
      | _, _, _, _ => .error "TypeError: missing required argument"
    else .error "TypeError: unexpected keyword argument"
  | _ => .error "TypeError: argument after ** must be a mapping"

/-- `WorkflowStep(**step)`: keyword construction from a decoded dict. -/
def stepFromJson : Json → Except String WorkflowStep
  | .obj kvs =>
    if kvs.all fun kv =>
        kv.1 = "name" ∨ kv.1 = "description" ∨ kv.1 = "role" ∨ kv.1 = "depends_on" then
      match dictGet kvs "name", dictGet kvs "description", dictGet kvs "role" with
      | some jn, some jd, some jr => do
        let n ← asPyStr jn
        let d ← asPyStr jd
        let r ← asPyStr jr
        let deps ←
          match dictGet kvs "depends_on" with
          | none => .ok ([] : List String)
          | some j => asPyStrList j
        .ok ⟨n, d, r, deps⟩
      | _, _, _ => .error "TypeError: missing required argument"
    else .error "TypeError: unexpected keyword argument"
  | _ => .error "TypeError: argument after ** must be a mapping"

/-- The `try Channel(channel) except ValueError: continue` step of
`TeamPlan.from_dict`: non-strings and unknown values are skipped. -/
def jsonToChannel : Json → Option Channel
  | .str s => channelOfValue s
  | _ => none

/-- `TeamPlan.from_dict`: build the plan from a decoded payload, defaulting
`roles`/`workflow` to `[]`, `communication` to `{}`, channel list to
`["status"]` (also when filtering leaves it empty) and the interval to
300. -/
def TeamPlan.from_dict (data : Json) : Except String TeamPlan :=
  match data with
  | .obj kvs => do
    let rolesJ ← pyIter ((dictGet kvs "roles").getD (.arr []))
    let roles ← rolesJ.mapM specFromJson
    let workflowJ ← pyIter ((dictGet kvs "workflow").getD (.arr []))
    let workflow ← workflowJ.mapM stepFromJson
    match (dictGet kvs "communication").getD (.obj []) with
    | .obj ckvs => do
      let channelsJ ← pyIter ((dictGet ckvs "channels").getD (.arr [.str "status"]))
      let parsed := channelsJ.filterMap jsonToChannel
      let channels := if parsed = [] then [Channel.status] else parsed
      let interval ← pyInt ((dictGet ckvs "interval_seconds").getD (.num 300 0))
      let brief ←
        match (dictGet kvs "mission_brief").getD (.str "") with
        | .str s => Except.ok s
        | _ => Except.error "TypeError: expected str"
      .ok ⟨brief, roles, workflow, ⟨interval, channels⟩⟩
    | _ => .error "AttributeError: object has no attribute get"
  | _ => .error "AttributeError: object has no attribute get"

/-- One content block of a model message (`{"type": ..., "text": ...}`).
Blocks lacking these keys behave as a non-`output_text` block / empty
text under the `.get` defaults of the source. -/
structure ContentItem where
  type : String
  text : String

/-- One message of the transcript returned by the planning capability; the
source reads only its `content` list. -/
structure ModelMessage where
  content : List ContentItem

/-- The inner loop of `OrchestratorAgent._extract_json`: scan one message's
content blocks in order and decode the first `output_text` block whose text
parses. -/
def scanContent : List ContentItem → Option Json
  | [] => none
  | item :: rest =>
    if item.type = "output_text" then
      match jsonLoads item.text with
      | some j => some j
      | none => scanContent rest
    else scanContent rest

/-- `OrchestratorAgent._extract_json` on an already-reversed message list. -/
def extractJsonRev : List ModelMessage → Except String Json
  | [] => .error "No JSON payload found in orchestrator response"
  | m :: rest =>
    match scanContent m.content with
    | some j => .ok j
    | none => extractJsonRev rest

/-- `OrchestratorAgent._extract_json`: scan the transcript's messages in
reverse order and return the first decodable `output_text` payload; raise
`ValueError` if none exists. -/
def extractJson (messages : List ModelMessage) : Except String Json :=
  extractJsonRev messages.reverse

/-- Orchestrator state touched by `handle_user_goal`: the stored plan and
the bus messages it has published. -/
structure OrchState where
  plan : Option TeamPlan
  events : List Message

/-- `OrchestratorAgent.handle_user_goal`, as a function of the transcript
the planning capability returned: extract the payload, build the plan,
store it and publish it on the `plan` channel.  An error leaves the state
untouched (the exception propagates before any assignment). -/
def handle_user_goal (st : OrchState) (messages : List ModelMessage) :
    OrchState × Except String TeamPlan :=
  match extractJson messages with
  | .error e => (st, .error e)
  | .ok payload =>
    match TeamPlan.from_dict payload with
    | .error e => (st, .error e)
    | .ok plan =>
      (⟨some plan, st.events ++ [⟨Channel.plan, "orchestrator", [("plan", payload)]⟩]⟩,
        .ok plan)

/-- `OrchestratorAgent.assign_workflow` over the workflow list: route each
step to the specialist whose handle equals the step's role
(`self.specialists.get(step.role)`), skipping steps with no match.  The
first component lists the `receive_step` queue deliveries in order; the
second lists bus messages published (none: the loop never calls
`notify`). -/
def assignSteps (handles : List String) :
    List WorkflowStep → List (String × WorkflowStep) × List Message
  | [] => ([], [])
  | step :: rest =>
    let (ds, es) := assignSteps handles rest
    if step.role ∈ handles then ((step.role, step) :: ds, es) else (ds, es)

/-- `OrchestratorAgent.assign_workflow` for a plan, given the handles of
the instantiated specialists (the keys of `self.specialists`). -/
def assign_workflow (plan : TeamPlan) (handles : List String) :
    List (String × WorkflowStep) × List Message :=
  assignSteps handles plan.workflow

/-! ## `agents/specialist.py`: action parsing, dispatch, and the step loop -/

/-- The inner scan of `SpecialistAgent._parse_actions` over one message's
content blocks: undecodable `output_text` blocks and decoded dicts without a
list-valued `actions` key are skipped; a decoded non-dict raises
`AttributeError` at `data.get("actions")`; a decoded dict with a
list-valued `actions` key returns that list. -/
def scanActionsItems : List ContentItem → Except String (Option (List Json))
  | [] => .ok none
  | item :: rest =>
    if item.type = "output_text" then
      match jsonLoads item.text with
      | none => scanActionsItems rest
      | some (.obj kvs) =>
        match dictGet kvs "actions" with
        | some (.arr acts) => .ok (some acts)
        | _ => scanActionsItems rest
      | some _ => .error "AttributeError: object has no attribute get"
    else scanActionsItems rest

/-- `SpecialistAgent._parse_actions` on an already-reversed message list. -/
def parseActionsRev : List ModelMessage → Except String (List Json)
  | [] => .ok []
  | m :: rest =>
    match scanActionsItems m.content with
    | .error e => .error e
    | .ok (some acts) => .ok acts
    | .ok none => parseActionsRev rest

/-- `SpecialistAgent._parse_actions`: scan the response's messages in
reverse for the first decodable `output_text` block carrying a list-valued
`actions` key; return `[]` when none is found. -/
def parseActions (messages : List ModelMessage) : Except String (List Json) :=
  parseActionsRev messages.reverse

/-- Behaviour of the Codex subprocess behind an open bridge, abstracted as
the outcome `CodexBridge.request` produces for each `(tool, kwargs)`
payload it writes.  (Spawning the bridge is external I/O and modelled as
succeeding; its failure modes are out of the claims' scope.) -/
def BridgeFn : Type := String → List (String × Json) → ReqOutcome

/-- Turn a request outcome into the value/exception seen by the caller of
the typed wrapper (`run_command`/`read_file`/`apply_patch`). -/
def outcomeToExcept : ReqOutcome → Except String CodexResponse
  | .response r => .ok r
  | .codexError msg => .error msg
  | .pyError msg => .error msg

/-- `kwargs.get(key, "")` where `kwargs` came from
`action.get("arguments", {})`: an `AttributeError` unless it is a dict. -/
def kwargGet (kwargs : Json) (key : String) : Except String Json :=
  match kwargs with
  | .obj kvs => .ok ((dictGet kvs key).getD (.str ""))
  | _ => .error "AttributeError: object has no attribute get"

/-- Python `str()` of the decoded value bound to `tool` (used by the
`Unknown tool` error message); `none` is Python's `None`.  Container
reprs are abbreviated: no claim depends on them. -/
def pyStrOfTool : Option Json → String
  | none => "None"
  | some (.str s) => s
  | some (.bool true) => "True"
  | some (.bool false) => "False"
  | some (.num m e) => toString m ++ (if 0 ≤ e then "e+" else "e") ++ toString e
  | some .nan => "nan"
  | some (.inf true) => "-inf"
  | some (.inf false) => "inf"
  | some .null => "None"
  | some (.arr _) => "[...]"
  | some (.obj _) => "\x7b...\x7d"

/-- `SpecialistAgent._dispatch_tool`: route the action's tool name to the
matching typed bridge wrapper; any other name raises `ValueError`. -/
def dispatchTool (bridge : BridgeFn) (tool : Option Json) (kwargs : Json) :
    Except String CodexResponse :=
  match tool with
  | some (.str s) =>
    if s = "run_command" then do
      let command ← kwargGet kwargs "command"
      outcomeToExcept (bridge "run_command" [("command", command)])
    else if s = "read_file" then do
      let path ← kwargGet kwargs "path"
      outcomeToExcept (bridge "read_file" [("path", path)])
    else if s = "apply_patch" then do
      let path ← kwargGet kwargs "path"
      let patch ← kwargGet kwargs "patch"
      outcomeToExcept (bridge "apply_patch" [("path", path), ("patch", patch)])
    else .error ("Unknown tool requested by specialist: " ++ s)
  | t => .error ("Unknown tool requested by specialist: " ++ pyStrOfTool t)

/-- The `status` event opening a step (`step_start`). -/
def startEvent (handle : String) (step : WorkflowStep) : Message :=
  ⟨.status, handle,
    [("event", .str "step_start"), ("handle", .str handle),
      ("step", .str step.name), ("description", .str step.description)]⟩

/-- The `status` event closing a step (`step_complete`). -/
def completeEvent (handle : String) (step : WorkflowStep) : Message :=
  ⟨.status, handle,
    [("event", .str "step_complete"), ("handle", .str handle), ("step", .str step.name)]⟩

/-- The `artifact` event published after a dispatched action. -/
def artifactEvent (handle : String) (step : WorkflowStep) (tool : Option Json)
    (result : Json) : Message :=
  ⟨.artifact, handle,
    [("event", .str "codex_action"), ("handle", .str handle),
      ("step", .str step.name), ("tool", tool.getD .null), ("result", result)]⟩

/-- The `alert` event the drain loop publishes when a step raises. -/
def alertEvent (handle : String) (step : WorkflowStep) (error : String) : Message :=
  ⟨.alert, handle,
    [("event", .str "specialist_error"), ("handle", .str handle),
      ("step", .str step.name), ("error", .str error)]⟩

/-- The action loop inside `SpecialistAgent._execute_step`: dispatch each
action in order, publishing an `artifact` event per successful dispatch;
the first exception aborts the loop.  Returns the events published and the
pending exception, if any. -/
def execActions (handle : String) (step : WorkflowStep) (bridge : BridgeFn) :
    List Json → List Message × Option String
  | [] => ([], none)
  | action :: rest =>
    match action with
    | .obj kvs =>
      let tool := dictGet kvs "tool"
      let kwargs := (dictGet kvs "arguments").getD (.obj [])
      match dispatchTool bridge tool kwargs with
      | .error e => ([], some e)
      | .ok result =>
        (artifactEvent handle step tool result.data :: (execActions handle step bridge rest).1,
          (execActions handle step bridge rest).2)
    | _ => ([], some "AttributeError: object has no attribute get")

/-- `SpecialistAgent._execute_step`, as a function of the planning
response: publish `step_start`, parse the actions, run them through the
bridge, and publish `step_complete` — or stop at the first exception,
which the caller observes.  Returns the events published (in order) and
the exception, if any. -/
def executeStep (handle : String) (step : WorkflowStep)
    (response : List ModelMessage) (bridge : BridgeFn) : List Message × Option String :=
  match parseActions response with
  | .error e => ([startEvent handle step], some e)
  | .ok actions =>
    match (execActions handle step bridge actions).2 with
    | some e => (startEvent handle step :: (execActions handle step bridge actions).1, some e)
    | none =>
      (startEvent handle step ::
        (execActions handle step bridge actions).1 ++ [completeEvent handle step], none)

/-- One iteration of `SpecialistAgent._loop`: execute the step; if it
raised, publish the `alert` event carrying the step name and error text. -/
def stepTrace (handle : String) (respFn : WorkflowStep → List ModelMessage)
    (bridge : BridgeFn) (step : WorkflowStep) : List Message :=
  match (executeStep handle step (respFn step) bridge).2 with
  | none => (executeStep handle step (respFn step) bridge).1
  | some e => (executeStep handle step (respFn step) bridge).1 ++ [alertEvent handle step e]

/-- `SpecialistAgent._loop` draining the queue contents `steps` in FIFO
order (the loop itself never terminates; this is its trace on the steps
enqueued).  `respFn` gives the planning response for each step and
`bridge` the subprocess behaviour. -/
def runLoop (handle : String) (respFn : WorkflowStep → List ModelMessage)
    (bridge : BridgeFn) : List WorkflowStep → List Message
  | [] => []
  | step :: rest => stepTrace handle respFn bridge step ++ runLoop handle respFn bridge rest

/-! ## Event predicates and fixtures used by the claims -/

/-- Does the event's payload carry `"step": name`? -/
def stepFieldIs (name : String) (e : Message) : Bool :=
  match dictGet e.payload "step" with
  | some (.str s) => s = name
  | _ => false

/-- An `alert` event for the named step. -/
def isAlertForStep (name : String) (e : Message) : Bool :=
  (e.channel == Channel.alert) && stepFieldIs name e

/-- The `status`/`step_start` event of the named step. -/
def isStartOf (name : String) (e : Message) : Prop :=
  e.channel = Channel.status ∧
    dictGet e.payload "event" = some (.str "step_start") ∧
    dictGet e.payload "step" = some (.str name)

/-- The `status`/`step_complete` event of the named step. -/
def isCompleteOf (name : String) (e : Message) : Prop :=
  e.channel = Channel.status ∧
    dictGet e.payload "event" = some (.str "step_complete") ∧
    dictGet e.payload "step" = some (.str name)

/-- The tool name an action requests, when it is a string. -/
def actionToolName (a : Json) : Option String :=
  match a with
  | .obj kvs =>
    match dictGet kvs "tool" with
    | some (.str s) => some s
    | _ => none
  | _ => none

/-- The transcript text and decoded payload of the concrete plan-extraction
example. -/
def planText : String :=
  "\x7b\"mission_brief\":\"x\",\"roles\":[],\"workflow\":[],\"communication\":\x7b\x7d\x7d"

def planJson : Json :=
  .obj [("mission_brief", .str "x"), ("roles", .arr []),
    ("workflow", .arr []), ("communication", .obj [])]

/-- A one-block transcript message with the given `output_text`. -/
def textMsg (t : String) : ModelMessage := ⟨[⟨"output_text", t⟩]⟩

/-- Concrete fixtures: two distinctly named steps, a planning response
requesting an unrecognized tool, an empty planning response, and an inert
bridge. -/
def stepOne : WorkflowStep := ⟨"s1", "d1", "coder", []⟩

def stepTwo : WorkflowStep := ⟨"s2", "d2", "coder", []⟩

def respUnknownTool : WorkflowStep → List ModelMessage :=
  fun _ => [textMsg "\x7b\"actions\":[\x7b\"tool\":\"delete_universe\"\x7d]\x7d"]

def respEmpty : WorkflowStep → List ModelMessage := fun _ => []

def bridgeInert : BridgeFn := fun _ _ => .codexError "unused"

/-- A bus message fixture. -/
def msgZero : Message := ⟨.status, "w", []⟩

/-- Bus fixture: one `status` subscriber, then `msgZero` published. -/
def busAfterPublish : BusState :=
  ((BusState.empty.subscribe .status).2).publish msgZero

/-- Workflow fixture for assignment: one step routable to `alice`, one whose
role matches no handle. -/
def planFive : TeamPlan :=
  ⟨"m", [], [⟨"a", "d", "alice", []⟩, ⟨"b", "d", "bob", []⟩], ⟨300, [.status]⟩⟩

/-- A planning response whose only block decodes to a dict without an
`actions` key. -/
def respBenign : List ModelMessage := [textMsg "\x7b\"note\":1\x7d"]

/-! ## Lemmas and claim theorems -/

theorem scanContent_eq_none (items : List ContentItem)
    (h : ∀ item ∈ items, item.type = "output_text" → jsonLoads item.text = none) :
    scanContent items = none := by
  induction items with
  | nil => rfl
  | cons item rest ih =>
    have hrest := ih fun i hi => h i (List.mem_cons_of_mem _ hi)
    simp only [scanContent]
    split
    · next htype =>
      rw [h item (List.mem_cons_self ..) htype]
      exact hrest
    · exact hrest

theorem extractJsonRev_eq_error (ms : List ModelMessage)
    (h : ∀ m ∈ ms, scanContent m.content = none) :
    extractJsonRev ms = .error "No JSON payload found in orchestrator response" := by
  induction ms with
  | nil => rfl
  | cons m rest ih =>
    simp only [extractJsonRev]
    rw [h m (List.mem_cons_self ..)]
    exact ih fun x hx => h x (List.mem_cons_of_mem _ hx)

/-- Claim C1: plan extraction scans the transcript's messages last-to-first
and returns the first message payload that parses as JSON (first conjunct:
appending a message makes it the first one scanned); in particular, on the
transcript `["not json", planText]` it returns the second message's object,
and building the plan from it defaults the interval to 300 seconds and the
channel list to `[status]`. -/
theorem claim_C1 :
    (∀ (ms : List ModelMessage) (m : ModelMessage),
      extractJson (ms ++ [m]) =
        match scanContent m.content with
        | some j => Except.ok j
        | none => extractJson ms) ∧
    extractJson [textMsg "not json", textMsg planText] = .ok planJson ∧
    TeamPlan.from_dict planJson = .ok ⟨"x", [], [], ⟨300, [Channel.status]⟩⟩ := by
  refine ⟨fun ms m => ?_, rfl, rfl⟩
  simp only [extractJson, List.reverse_append, List.reverse_cons, List.reverse_nil,
    List.nil_append, List.singleton_append]
  cases h : scanContent m.content <;> simp [extractJsonRev, h]

/-- Claim C6: when no message of the planning transcript contains an
`output_text` block that parses as JSON, `handle_user_goal` propagates the
extraction error and neither stores a plan nor publishes anything: the
orchestrator state is returned unchanged. -/
theorem claim_C6 (st : OrchState) (messages : List ModelMessage)
    (h : ∀ m ∈ messages, ∀ item ∈ m.content,
      item.type = "output_text" → jsonLoads item.text = none) :
    handle_user_goal st messages =
      (st, .error "No JSON payload found in orchestrator response") := by
  have hx : extractJson messages = .error "No JSON payload found in orchestrator response" := by
    unfold extractJson
    exact extractJsonRev_eq_error _ fun m hm =>
      scanContent_eq_none _ (h m (List.mem_reverse.mp hm))
  unfold handle_user_goal
  rw [hx]

theorem claim_C6_witness :
    handle_user_goal ⟨none, []⟩ [textMsg "not json"] =
      (⟨none, []⟩, .error "No JSON payload found in orchestrator response") := by
  apply claim_C6
  intro m hm item hit _
  rw [List.mem_singleton] at hm
  subst hm
  rw [show (textMsg "not json").content = [⟨"output_text", "not json"⟩] from rfl,
    List.mem_singleton] at hit
  subst hit
  rfl

/-- Claim C7 (amended): an empty response line, and a non-empty line that
does not decode as JSON, raise the bridge's `CodexError`; a line decoding
as a JSON object yields a response whose `raw` is exactly the original
text and whose `data` is the parsed object.  (A line decoding as a
non-object JSON value instead hits an `AttributeError`, see the
counterexample.) -/
theorem claim_C7 (line : String) :
    (line = "" → CodexBridge.request line = .codexError "Codex bridge returned empty response") ∧
    (line ≠ "" → jsonLoads line = none →
      CodexBridge.request line = .codexError ("Invalid JSON from Codex: " ++ line)) ∧
    ∀ kvs, jsonLoads line = some (.obj kvs) →
      ∃ r, CodexBridge.request line = .response r ∧ r.raw = line ∧ r.data = .obj kvs := by
  refine ⟨?_, ?_, ?_⟩
  · intro h; subst h; rfl
  · intro hne hp
    unfold CodexBridge.request
    rw [if_neg hne, hp]
  · intro kvs hp
    have hne : line ≠ "" := by
      intro h; subst h
      rw [show jsonLoads "" = none from rfl] at hp
      exact Option.noConfusion hp
    refine ⟨⟨((dictGet kvs "ok").map pyTruthy).getD false, .obj kvs, line⟩, ?_, rfl, rfl⟩
    unfold CodexBridge.request
    rw [if_neg hne, hp]

theorem claim_C7_counterexample :
    ¬ (("5" = "" ∨ jsonLoads "5" = none →
          ∃ msg, CodexBridge.request "5" = .codexError msg) ∧
        (¬("5" = "" ∨ jsonLoads "5" = none) →
          ∃ r, CodexBridge.request "5" = .response r ∧ r.raw = "5")) := by
  rintro ⟨-, h⟩
  obtain ⟨r, hr, -⟩ := h (by
    rintro (h5 | hp)
    · exact absurd h5 (by decide)
    · rw [show jsonLoads "5" = some (Json.num 5 0) from rfl] at hp
      exact Option.noConfusion hp)
  rw [show CodexBridge.request "5" =
      ReqOutcome.pyError "AttributeError: object has no attribute get" from rfl] at hr
  exact ReqOutcome.noConfusion hr

theorem claim_C7_witness :
    CodexBridge.request "" = .codexError "Codex bridge returned empty response" ∧
    ∃ r, CodexBridge.request "\x7b\x7d" = .response r ∧
      r.raw = "\x7b\x7d" ∧ r.data = .obj [] :=
  ⟨(claim_C7 "").1 rfl, (claim_C7 "\x7b\x7d").2.2 [] rfl⟩

/-- Claim C10: a response line decoding as a JSON object always yields a
response (never a protocol error), whose `ok` field is the truthiness of
the object's `ok` entry and `false` when that entry is absent. -/
theorem claim_C10 (line : String) (kvs : List (String × Json))
    (h : jsonLoads line = some (.obj kvs)) :
    (∃ r, CodexBridge.request line = .response r ∧
        r.ok = ((dictGet kvs "ok").map pyTruthy).getD false) ∧
    ∀ msg, CodexBridge.request line ≠ .codexError msg := by
  have hne : line ≠ "" := by
    intro he; subst he
    rw [show jsonLoads "" = none from rfl] at h
    exact Option.noConfusion h
  have hreq : CodexBridge.request line =
      .response ⟨((dictGet kvs "ok").map pyTruthy).getD false, .obj kvs, line⟩ := by
    unfold CodexBridge.request
    rw [if_neg hne, h]
  refine ⟨⟨_, hreq, rfl⟩, ?_⟩
  intro msg hc
  rw [hreq] at hc
  exact ReqOutcome.noConfusion hc

theorem claim_C10_witness :
    ∃ r, CodexBridge.request "\x7b\"a\":1\x7d" = .response r ∧ r.ok = false := by
  obtain ⟨⟨r, hr, hok⟩, -⟩ := claim_C10 "\x7b\"a\":1\x7d" [("a", .num 1 0)] rfl
  exact ⟨r, hr, hok.trans rfl⟩

/-- Claim C8: `snapshot` returns exactly the messages currently buffered
across the channel's subscriber queues and leaves the bus state unchanged. -/
theorem claim_C8 (st : BusState) (c : Channel) :
    (st.snapshot c).2 = st ∧
    ∀ M, M ∈ (st.snapshot c).1 ↔ ∃ s ∈ st.subs, s.channel = c ∧ M ∈ s.buf := by
  refine ⟨rfl, fun M => ?_⟩
  simp only [BusState.snapshot, List.mem_flatten, List.mem_map, List.mem_filter]
  constructor
  · rintro ⟨l, ⟨s, ⟨hs, hc⟩, rfl⟩, hM⟩
    exact ⟨s, hs, by simpa using hc, hM⟩
  · rintro ⟨s, hs, hc, hM⟩
    exact ⟨s.buf, ⟨s, ⟨hs, by simpa using hc⟩, rfl⟩, hM⟩

theorem claim_C8_witness :
    msgZero ∈ (busAfterPublish.snapshot .status).1 ∧
    (busAfterPublish.snapshot .status).2 = busAfterPublish := by
  refine ⟨((claim_C8 busAfterPublish .status).2 msgZero).mpr ?_,
    (claim_C8 busAfterPublish .status).1⟩
  refine ⟨⟨0, .status, [msgZero]⟩, ?_, rfl, List.mem_singleton.mpr rfl⟩
  rw [show busAfterPublish.subs = [⟨0, Channel.status, [msgZero]⟩] from rfl]
  exact List.mem_singleton.mpr rfl

theorem assignSteps_eq (handles : List String) (l : List WorkflowStep) :
    assignSteps handles l =
      (l.filterMap fun s => if s.role ∈ handles then some (s.role, s) else none, []) := by
  induction l with
  | nil => rfl
  | cons s rest ih =>
    by_cases hs : s.role ∈ handles <;>
      simp [assignSteps, ih, List.filterMap_cons, hs]

/-- Claim C5: workflow assignment routes each step to the specialist whose
handle equals the step's role, publishes nothing, and silently drops —
never dispatches — any step whose role matches no handle. -/
theorem claim_C5 (plan : TeamPlan) (handles : List String) :
    (assign_workflow plan handles).1 =
        plan.workflow.filterMap (fun s => if s.role ∈ handles then some (s.role, s) else none) ∧
    (assign_workflow plan handles).2 = [] ∧
    ∀ step ∈ plan.workflow, step.role ∉ handles →
      ∀ h, (h, step) ∉ (assign_workflow plan handles).1 := by
  have heq := assignSteps_eq handles plan.workflow
  refine ⟨by rw [assign_workflow, heq], by rw [assign_workflow, heq], ?_⟩
  intro step hstep hrole h hmem
  rw [assign_workflow, heq] at hmem
  simp only [List.mem_filterMap] at hmem
  obtain ⟨s, hs, hf⟩ := hmem
  by_cases hr : s.role ∈ handles
  · rw [if_pos hr] at hf
    have hss : s = step := congrArg Prod.snd (Option.some.inj hf)
    exact hrole (hss ▸ hr)
  · rw [if_neg hr] at hf
    exact Option.noConfusion hf

theorem claim_C5_witness :
    ("bob", (⟨"b", "d", "bob", []⟩ : WorkflowStep)) ∉ (assign_workflow planFive ["alice"]).1 :=
  (claim_C5 planFive ["alice"]).2.2 ⟨"b", "d", "bob", []⟩ (by decide) (by decide) "bob"

theorem mem_bufOf {st : BusState} {q : Nat} {M : Message} :
    M ∈ st.bufOf q ↔ ∃ s ∈ st.subs, s.qid = q ∧ M ∈ s.buf := by
  simp only [BusState.bufOf, List.mem_flatten, List.mem_map, List.mem_filter]
  constructor
  · rintro ⟨l, ⟨s, ⟨hs, hq⟩, rfl⟩, hM⟩
    exact ⟨s, hs, by simpa using hq, hM⟩
  · rintro ⟨s, hs, hq, hM⟩
    exact ⟨s.buf, ⟨s, ⟨hs, by simpa using hq⟩, rfl⟩, hM⟩

theorem mem_bufOf_runOp {st : BusState} {op : BusOp} {q : Nat} {M : Message}
    (h : M ∈ (st.runOp op).bufOf q) :
    M ∈ st.bufOf q ∨ op = .publish M := by
  cases op with
  | publish m =>
    obtain ⟨s, hs, hq, hM⟩ := mem_bufOf.mp h
    simp only [BusState.runOp, BusState.publish, List.mem_map] at hs
    obtain ⟨s0, hs0, rfl⟩ := hs
    by_cases hc : s0.channel = m.channel
    · rw [if_pos hc] at hq hM
      rcases List.mem_append.mp hM with hM1 | hM2
      · exact .inl (mem_bufOf.mpr ⟨s0, hs0, hq, hM1⟩)
      · rw [List.mem_singleton] at hM2
        exact .inr (by rw [hM2])
    · rw [if_neg hc] at hq hM
      exact .inl (mem_bufOf.mpr ⟨s0, hs0, hq, hM⟩)
  | subscribe c =>
    obtain ⟨s, hs, hq, hM⟩ := mem_bufOf.mp h
    simp only [BusState.runOp, BusState.subscribe] at hs
    rcases List.mem_append.mp hs with hs1 | hs2
    · exact .inl (mem_bufOf.mpr ⟨s, hs1, hq, hM⟩)
    · rw [List.mem_singleton] at hs2
      subst hs2
      exact absurd hM (List.not_mem_nil _)
  | consume q' =>
    obtain ⟨s, hs, hq, hM⟩ := mem_bufOf.mp h
    simp only [BusState.runOp, BusState.consume, List.mem_map] at hs
    obtain ⟨s0, hs0, rfl⟩ := hs
    by_cases hc : s0.qid = q'
    · rw [if_pos hc] at hq hM
      exact .inl (mem_bufOf.mpr ⟨s0, hs0, hq, List.mem_of_mem_tail hM⟩)
    · rw [if_neg hc] at hq hM
      exact .inl (mem_bufOf.mpr ⟨s0, hs0, hq, hM⟩)
  | unsubscribe q' =>
    obtain ⟨s, hs, hq, hM⟩ := mem_bufOf.mp h
    simp only [BusState.runOp, BusState.unsubscribe] at hs
    exact .inl (mem_bufOf.mpr ⟨s, List.mem_of_mem_filter hs, hq, hM⟩)

theorem mem_bufOf_runOps {st : BusState} {ops : List BusOp} {q : Nat} {M : Message}
    (h : M ∈ (st.runOps ops).bufOf q) :
    M ∈ st.bufOf q ∨ .publish M ∈ ops := by
  induction ops generalizing st with
  | nil => exact .inl h
  | cons op rest ih =>
    simp only [BusState.runOps, List.foldl_cons] at h
    rcases @ih (st.runOp op) h with h1 | h2
    · rcases mem_bufOf_runOp h1 with h3 | h4
      · exact .inl h3
      · exact .inr (by rw [← h4]; exact List.mem_cons_self ..)
    · exact .inr (List.mem_cons_of_mem _ h2)

theorem bufOf_subscribe_self {st : BusState} {c : Channel} (hwf : st.WF) :
    (st.subscribe c).2.bufOf (st.subscribe c).1 = [] := by
  simp only [BusState.subscribe, BusState.bufOf, List.filter_append]
  have h1 : st.subs.filter (fun s => s.qid = st.nextId) = [] := by
    rw [List.filter_eq_nil_iff]
    intro s hs
    simp only [decide_eq_true_eq]
    exact Nat.ne_of_lt (hwf s hs)
  rw [h1]
  simp

/-- Claim C4: a freshly registered subscriber queue starts empty — whatever
was published before the subscribe is not delivered to it — and it stays
free of any message not published after the subscribe; moreover `publish`
registers no new queue (it delivers only to the queues present at the
moment of the publish). -/
theorem claim_C4 (st : BusState) (c : Channel) (M : Message) (hwf : st.WF) :
    (st.subscribe c).2.bufOf (st.subscribe c).1 = [] ∧
    (∀ ops, (∀ op ∈ ops, op ≠ .publish M) →
      M ∉ ((st.subscribe c).2.runOps ops).bufOf (st.subscribe c).1) ∧
    ∀ m, (st.publish m).subs.map SubEntry.qid = st.subs.map SubEntry.qid := by
  refine ⟨bufOf_subscribe_self hwf, ?_, ?_⟩
  · intro ops hops hmem
    rcases mem_bufOf_runOps hmem with h1 | h2
    · rw [bufOf_subscribe_self hwf] at h1
      exact List.not_mem_nil _ h1
    · exact hops _ h2 rfl
  · intro m
    simp only [BusState.publish, List.map_map]
    apply List.map_congr_left
    intro s _
    by_cases hc : s.channel = m.channel <;> simp [hc]

theorem claim_C4_witness :
    msgZero ∉ ((busAfterPublish.subscribe .status).2.runOps [.consume 0]).bufOf
      (busAfterPublish.subscribe .status).1 := by
  have hwf : busAfterPublish.WF := by
    intro s hs
    rw [show busAfterPublish.subs = [⟨0, Channel.status, [msgZero]⟩] from rfl,
      List.mem_singleton] at hs
    subst hs
    show 0 < 1
    decide
  refine (claim_C4 busAfterPublish .status msgZero hwf).2.1 [.consume 0] ?_
  intro op hop
  rw [List.mem_singleton] at hop
  subst hop
  exact fun h => BusOp.noConfusion h

theorem scanActionsItems_eq_none (items : List ContentItem)
    (h : ∀ item ∈ items, item.type = "output_text" →
      jsonLoads item.text = none ∨
        ∃ kvs, jsonLoads item.text = some (.obj kvs) ∧
          ∀ acts, dictGet kvs "actions" ≠ some (.arr acts)) :
    scanActionsItems items = .ok none := by
  induction items with
  | nil => rfl
  | cons item rest ih =>
    have hrest := ih fun i hi => h i (List.mem_cons_of_mem _ hi)
    simp only [scanActionsItems]
    split
    · next htype =>
      rcases h item (List.mem_cons_self ..) htype with hnone | ⟨kvs, hobj, hacts⟩
      · rw [hnone]
        exact hrest
      · rw [hobj]
        dsimp only
        cases hd : dictGet kvs "actions" with
        | none => exact hrest
        | some v =>
          cases v
          case arr acts => exact absurd hd (hacts acts)
          all_goals exact hrest
    · exact hrest

theorem parseActionsRev_eq_nil (ms : List ModelMessage)
    (h : ∀ m ∈ ms, scanActionsItems m.content = .ok none) :
    parseActionsRev ms = .ok [] := by
  induction ms with
  | nil => rfl
  | cons m rest ih =>
    simp only [parseActionsRev]
    rw [h m (List.mem_cons_self ..)]
    exact ih fun x hx => h x (List.mem_cons_of_mem _ hx)

/-- Claim C9 (amended): when every `output_text` block of the planning
response either fails to decode as JSON or decodes as a JSON object
without a list-valued `actions` key, action parsing returns the empty list
rather than raising, and the step executes zero actions and completes
normally — exactly its `step_start` and `step_complete` status events, no
artifact and no alert.  (A block decoding as a non-object JSON value
instead raises, see the counterexample.) -/
theorem claim_C9 (response : List ModelMessage)
    (h : ∀ m ∈ response, ∀ item ∈ m.content, item.type = "output_text" →
      jsonLoads item.text = none ∨
        ∃ kvs, jsonLoads item.text = some (.obj kvs) ∧
          ∀ acts, dictGet kvs "actions" ≠ some (.arr acts)) :
    parseActions response = .ok [] ∧
    ∀ handle step bridge,
      executeStep handle step response bridge =
        ([startEvent handle step, completeEvent handle step], none) := by
  have hp : parseActions response = .ok [] := by
    unfold parseActions
    exact parseActionsRev_eq_nil _ fun m hm =>
      scanActionsItems_eq_none _ (h m (List.mem_reverse.mp hm))
  refine ⟨hp, fun handle step bridge => ?_⟩
  unfold executeStep
  rw [hp]
  rfl

theorem claim_C9_witness :
    executeStep "w" stepOne respBenign bridgeInert =
      ([startEvent "w" stepOne, completeEvent "w" stepOne], none) := by
  refine (claim_C9 respBenign ?_).2 "w" stepOne bridgeInert
  intro m hm item hit _
  rw [show respBenign = [textMsg "\x7b\"note\":1\x7d"] from rfl, List.mem_singleton] at hm
  subst hm
  rw [show (textMsg "\x7b\"note\":1\x7d").content =
      [⟨"output_text", "\x7b\"note\":1\x7d"⟩] from rfl, List.mem_singleton] at hit
  subst hit
  right
  refine ⟨[("note", .num 1 0)], rfl, ?_⟩
  intro acts hd
  rw [show dictGet [("note", Json.num 1 0)] "actions" = none from rfl] at hd
  exact Option.noConfusion hd

theorem claim_C9_counterexample :
    ¬ ((∀ m ∈ [textMsg "[1]"], ∀ item ∈ m.content, item.type = "output_text" →
          ∀ kvs acts, ¬(jsonLoads item.text = some (.obj kvs) ∧
            dictGet kvs "actions" = some (.arr acts))) →
        parseActions [textMsg "[1]"] = .ok [] ∧
        ∀ handle step bridge,
          executeStep handle step [textMsg "[1]"] bridge =
            ([startEvent handle step, completeEvent handle step], none)) := by
  intro himp
  have hhyp : ∀ m ∈ [textMsg "[1]"], ∀ item ∈ m.content, item.type = "output_text" →
      ∀ kvs acts, ¬(jsonLoads item.text = some (.obj kvs) ∧
        dictGet kvs "actions" = some (.arr acts)) := by
    intro m hm item hit _ kvs acts
    rintro ⟨hp, -⟩
    rw [List.mem_singleton] at hm
    subst hm
    rw [show (textMsg "[1]").content = [⟨"output_text", "[1]"⟩] from rfl,
      List.mem_singleton] at hit
    subst hit
    rw [show jsonLoads "[1]" = some (Json.arr [Json.num 1 0]) from rfl] at hp
    exact Json.noConfusion (Option.some.inj hp)
  obtain ⟨h1, -⟩ := himp hhyp
  rw [show parseActions [textMsg "[1]"] =
      .error "AttributeError: object has no attribute get" from rfl] at h1
  exact Except.noConfusion h1

theorem runLoop_append (h : String) (r : WorkflowStep → List ModelMessage) (b : BridgeFn)
    (xs ys : List WorkflowStep) :
    runLoop h r b (xs ++ ys) = runLoop h r b xs ++ runLoop h r b ys := by
  induction xs with
  | nil => rfl
  | cons s rest ih => simp [runLoop, ih]

theorem dictGet_startEvent (h : String) (s : WorkflowStep) :
    dictGet (startEvent h s).payload "step" = some (.str s.name) := by
  simp [startEvent, dictGet]

theorem dictGet_completeEvent (h : String) (s : WorkflowStep) :
    dictGet (completeEvent h s).payload "step" = some (.str s.name) := by
  simp [completeEvent, dictGet]

theorem dictGet_artifactEvent (h : String) (s : WorkflowStep) (tool : Option Json) (res : Json) :
    dictGet (artifactEvent h s tool res).payload "step" = some (.str s.name) := by
  simp [artifactEvent, dictGet]

theorem dictGet_artifactEvent_tool (h : String) (s : WorkflowStep) (tool : Option Json)
    (res : Json) :
    dictGet (artifactEvent h s tool res).payload "tool" = some (tool.getD .null) := by
  simp [artifactEvent, dictGet]

theorem dictGet_alertEvent (h : String) (s : WorkflowStep) (err : String) :
    dictGet (alertEvent h s err).payload "step" = some (.str s.name) := by
  simp [alertEvent, dictGet]

theorem dispatchTool_ok_tool {b : BridgeFn} {tool : Option Json} {kwargs : Json}
    {r : CodexResponse} (h : dispatchTool b tool kwargs = .ok r) :
    ∃ t, tool = some (.str t) ∧
      (t = "run_command" ∨ t = "read_file" ∨ t = "apply_patch") := by
  cases tool with
  | none => exact absurd h (by simp [dispatchTool])
  | some v =>
    cases v with
    | str s =>
      refine ⟨s, rfl, ?_⟩
      by_cases h1 : s = "run_command"
      · exact .inl h1
      · by_cases h2 : s = "read_file"
        · exact .inr (.inl h2)
        · by_cases h3 : s = "apply_patch"
          · exact .inr (.inr h3)
          · simp only [dispatchTool, if_neg h1, if_neg h2, if_neg h3] at h
            exact Except.noConfusion h
    | null => exact absurd h (by simp [dispatchTool])
    | bool b0 => exact absurd h (by simp [dispatchTool])
    | num m e => exact absurd h (by simp [dispatchTool])
    | nan => exact absurd h (by simp [dispatchTool])
    | inf n => exact absurd h (by simp [dispatchTool])
    | arr xs => exact absurd h (by simp [dispatchTool])
    | obj kvs => exact absurd h (by simp [dispatchTool])

theorem mem_execActions {h : String} {s : WorkflowStep} {b : BridgeFn}
    {acts : List Json} {e : Message} (he : e ∈ (execActions h s b acts).1) :
    ∃ t res, e = artifactEvent h s (some (.str t)) res ∧
      (t = "run_command" ∨ t = "read_file" ∨ t = "apply_patch") := by
  induction acts with
  | nil => exact absurd he (List.not_mem_nil _)
  | cons a rest ih =>
    cases a with
    | obj kvs =>
      simp only [execActions] at he
      cases hdisp : dispatchTool b (dictGet kvs "tool") ((dictGet kvs "arguments").getD (.obj []))
        with
      | error err =>
        rw [hdisp] at he
        exact absurd he (List.not_mem_nil _)
      | ok result =>
        rw [hdisp] at he
        rcases List.mem_cons.mp he with h1 | h2
        · obtain ⟨t, ht, hk⟩ := dispatchTool_ok_tool hdisp
          exact ⟨t, result.data, by rw [h1, ht], hk⟩
        · exact ih h2
    | null => exact absurd he (List.not_mem_nil _)
    | bool b0 => exact absurd he (List.not_mem_nil _)
    | num m ex => exact absurd he (List.not_mem_nil _)
    | nan => exact absurd he (List.not_mem_nil _)
    | inf n => exact absurd he (List.not_mem_nil _)
    | str s0 => exact absurd he (List.not_mem_nil _)
    | arr xs => exact absurd he (List.not_mem_nil _)

theorem mem_executeStep {h : String} {s : WorkflowStep} {resp : List ModelMessage}
    {b : BridgeFn} {e : Message} (he : e ∈ (executeStep h s resp b).1) :
    e = startEvent h s ∨ e = completeEvent h s ∨
      ∃ t res, e = artifactEvent h s (some (.str t)) res ∧
        (t = "run_command" ∨ t = "read_file" ∨ t = "apply_patch") := by
  unfold executeStep at he
  cases hp : parseActions resp with
  | error err =>
    rw [hp] at he
    rw [List.mem_singleton] at he
    exact .inl he
  | ok actions =>
    rw [hp] at he
    dsimp only at he
    cases herr : (execActions h s b actions).2 with
    | some err =>
      rw [herr] at he
      rcases List.mem_cons.mp he with h1 | h2
      · exact .inl h1
      · exact .inr (.inr (mem_execActions h2))
    | none =>
      rw [herr] at he
      rcases List.mem_cons.mp he with h1 | h2
      · exact .inl h1
      · rcases List.mem_append.mp h2 with h3 | h4
        · exact .inr (.inr (mem_execActions h3))
        · rw [List.mem_singleton] at h4
          exact .inr (.inl h4)

theorem stepField_of_mem_stepTrace {h : String} {r : WorkflowStep → List ModelMessage}
    {b : BridgeFn} {s : WorkflowStep} {e : Message} (he : e ∈ stepTrace h r b s) :
    dictGet e.payload "step" = some (.str s.name) := by
  unfold stepTrace at he
  cases herr : (executeStep h s (r s) b).2 with
  | none =>
    rw [herr] at he
    rcases mem_executeStep he with h1 | h2 | ⟨t, res, h3, -⟩
    · rw [h1]; exact dictGet_startEvent ..
    · rw [h2]; exact dictGet_completeEvent ..
    · rw [h3]; exact dictGet_artifactEvent ..
  | some err =>
    rw [herr] at he
    rcases List.mem_append.mp he with h1 | h2
    · rcases mem_executeStep h1 with h3 | h4 | ⟨t, res, h5, -⟩
      · rw [h3]; exact dictGet_startEvent ..
      · rw [h4]; exact dictGet_completeEvent ..
      · rw [h5]; exact dictGet_artifactEvent ..
    · rw [List.mem_singleton] at h2
      rw [h2]; exact dictGet_alertEvent ..

theorem channel_of_mem_executeStep {h : String} {s : WorkflowStep}
    {resp : List ModelMessage} {b : BridgeFn} {e : Message}
    (he : e ∈ (executeStep h s resp b).1) :
    e.channel = Channel.status ∨ e.channel = Channel.artifact := by
  rcases mem_executeStep he with h1 | h2 | ⟨t, res, h3, -⟩
  · rw [h1]; exact .inl rfl
  · rw [h2]; exact .inl rfl
  · rw [h3]; exact .inr rfl

theorem isAlertForStep_alertEvent (h : String) (s : WorkflowStep) (err : String) :
    isAlertForStep s.name (alertEvent h s err) = true := by
  simp [isAlertForStep, stepFieldIs, alertEvent, dictGet]

theorem filter_alert_executeStep (h : String) (s : WorkflowStep)
    (resp : List ModelMessage) (b : BridgeFn) (name : String) :
    ((executeStep h s resp b).1).filter (isAlertForStep name) = [] := by
  rw [List.filter_eq_nil_iff]
  intro e he
  rcases channel_of_mem_executeStep he with hc | hc <;>
    simp [isAlertForStep, hc]

theorem filter_alert_stepTrace_of_err {h : String} {r : WorkflowStep → List ModelMessage}
    {b : BridgeFn} {s : WorkflowStep} {err : String}
    (herr : (executeStep h s (r s) b).2 = some err) :
    (stepTrace h r b s).filter (isAlertForStep s.name) = [alertEvent h s err] := by
  unfold stepTrace
  rw [herr, List.filter_append, filter_alert_executeStep]
  simp [List.filter, isAlertForStep_alertEvent]

theorem mem_runLoop {h : String} {r : WorkflowStep → List ModelMessage} {b : BridgeFn}
    {steps : List WorkflowStep} {e : Message} (he : e ∈ runLoop h r b steps) :
    ∃ s ∈ steps, e ∈ stepTrace h r b s := by
  induction steps with
  | nil => exact absurd he (List.not_mem_nil _)
  | cons s rest ih =>
    simp only [runLoop] at he
    rcases List.mem_append.mp he with h1 | h2
    · exact ⟨s, List.mem_cons_self .., h1⟩
    · obtain ⟨s2, hs2, he2⟩ := ih h2
      exact ⟨s2, List.mem_cons_of_mem _ hs2, he2⟩

theorem filter_alert_runLoop_nil {h : String} {r : WorkflowStep → List ModelMessage}
    {b : BridgeFn} {steps : List WorkflowStep} {name : String}
    (hname : ∀ s ∈ steps, s.name ≠ name) :
    (runLoop h r b steps).filter (isAlertForStep name) = [] := by
  rw [List.filter_eq_nil_iff]
  intro e he hcon
  obtain ⟨s, hs, hes⟩ := mem_runLoop he
  have hf := stepField_of_mem_stepTrace hes
  simp only [isAlertForStep, stepFieldIs, hf, Bool.and_eq_true, decide_eq_true_eq] at hcon
  exact hname s hs hcon.2

theorem executeStep_fst_head (h : String) (s : WorkflowStep) (resp : List ModelMessage)
    (b : BridgeFn) :
    ∃ t, (executeStep h s resp b).1 = startEvent h s :: t := by
  unfold executeStep
  cases hp : parseActions resp with
  | error err => exact ⟨[], rfl⟩
  | ok actions =>
    dsimp only
    cases herr : (execActions h s b actions).2 with
    | some err => exact ⟨_, rfl⟩
    | none => exact ⟨_, rfl⟩

theorem startEvent_mem_runLoop {h : String} {r : WorkflowStep → List ModelMessage}
    {b : BridgeFn} {steps : List WorkflowStep} (s : WorkflowStep) (hs : s ∈ steps) :
    startEvent h s ∈ runLoop h r b steps := by
  induction steps with
  | nil => exact absurd hs (List.not_mem_nil _)
  | cons x rest ih =>
    simp only [runLoop]
    rcases List.mem_cons.mp hs with h1 | h2
    · subst h1
      apply List.mem_append_left
      unfold stepTrace
      obtain ⟨t, ht⟩ := executeStep_fst_head h s (r s) b
      cases herr : (executeStep h s (r s) b).2 with
      | none =>
        rw [ht]
        exact List.mem_cons_self ..
      | some err =>
        rw [ht]
        exact List.mem_append_left _ (List.mem_cons_self ..)
    · exact List.mem_append_right _ (ih h2)

theorem actionToolName_spec {a : Json} {tn : String} (h : actionToolName a = some tn) :
    ∃ kvs, a = .obj kvs ∧ dictGet kvs "tool" = some (.str tn) := by
  cases a with
  | obj kvs =>
    refine ⟨kvs, rfl, ?_⟩
    simp only [actionToolName] at h
    cases hd : dictGet kvs "tool" with
    | none =>
      rw [hd] at h
      exact Option.noConfusion h
    | some v =>
      rw [hd] at h
      cases v with
      | str s => rw [Option.some.inj h]
      | null => exact Option.noConfusion h
      | bool b0 => exact Option.noConfusion h
      | num m e => exact Option.noConfusion h
      | nan => exact Option.noConfusion h
      | inf n => exact Option.noConfusion h
      | arr xs => exact Option.noConfusion h
      | obj kvs2 => exact Option.noConfusion h
  | null => exact Option.noConfusion h
  | bool b0 => exact Option.noConfusion h
  | num m e => exact Option.noConfusion h
  | nan => exact Option.noConfusion h
  | inf n => exact Option.noConfusion h
  | str s0 => exact Option.noConfusion h
  | arr xs => exact Option.noConfusion h

theorem dispatchTool_unknown {b : BridgeFn} {kwargs : Json} {tn : String}
    (h1 : tn ≠ "run_command") (h2 : tn ≠ "read_file") (h3 : tn ≠ "apply_patch") :
    dispatchTool b (some (.str tn)) kwargs =
      .error ("Unknown tool requested by specialist: " ++ tn) := by
  simp only [dispatchTool, if_neg h1, if_neg h2, if_neg h3]

theorem execActions_err {h : String} {s : WorkflowStep} {b : BridgeFn}
    {acts : List Json} {a : Json} {tn : String}
    (ha : a ∈ acts) (htn : actionToolName a = some tn)
    (h1 : tn ≠ "run_command") (h2 : tn ≠ "read_file") (h3 : tn ≠ "apply_patch") :
    ∃ err, (execActions h s b acts).2 = some err := by
  induction acts with
  | nil => exact absurd ha (List.not_mem_nil _)
  | cons x rest ih =>
    rcases List.mem_cons.mp ha with hax | har
    · obtain ⟨kvs, hx, htool⟩ := actionToolName_spec htn
      rw [← hax, hx]
      simp only [execActions]
      rw [htool, dispatchTool_unknown h1 h2 h3]
      exact ⟨_, rfl⟩
    · have hrest := ih har
      cases x with
      | obj kvs =>
        simp only [execActions]
        cases hd : dispatchTool b (dictGet kvs "tool") ((dictGet kvs "arguments").getD (.obj []))
          with
        | error e2 => exact ⟨e2, rfl⟩
        | ok result => exact hrest
      | null => exact ⟨_, rfl⟩
      | bool b0 => exact ⟨_, rfl⟩
      | num m e => exact ⟨_, rfl⟩
      | nan => exact ⟨_, rfl⟩
      | inf n => exact ⟨_, rfl⟩
      | str s0 => exact ⟨_, rfl⟩
      | arr xs => exact ⟨_, rfl⟩

theorem executeStep_snd {h : String} {s : WorkflowStep} {resp : List ModelMessage}
    {b : BridgeFn} {acts : List Json} (hp : parseActions resp = .ok acts) :
    (executeStep h s resp b).2 = (execActions h s b acts).2 := by
  unfold executeStep
  rw [hp]
  dsimp only
  cases herr : (execActions h s b acts).2 with
  | some err => rfl
  | none => rfl

theorem nodup_names_split {pre post : List WorkflowStep} {S : WorkflowStep}
    (h : ((pre ++ S :: post).map WorkflowStep.name).Nodup) :
    (∀ s ∈ pre, s.name ≠ S.name) ∧ (∀ s ∈ post, s.name ≠ S.name) := by
  rw [List.map_append, List.map_cons, List.nodup_append] at h
  obtain ⟨h1, h2, hdisj⟩ := h
  constructor
  · intro s hs heq
    exact hdisj (List.mem_map_of_mem _ hs) (by rw [heq]; exact List.mem_cons_self ..)
  · intro s hs heq
    rw [List.nodup_cons] at h2
    exact h2.1 (heq ▸ List.mem_map_of_mem _ hs)

theorem artifact_tool_known {handle : String} {r : WorkflowStep → List ModelMessage}
    {b : BridgeFn} {steps : List WorkflowStep} {e : Message}
    (he : e ∈ runLoop handle r b steps) (hch : e.channel = Channel.artifact) :
    ∃ t res s, e = artifactEvent handle s (some (.str t)) res ∧
      (t = "run_command" ∨ t = "read_file" ∨ t = "apply_patch") := by
  obtain ⟨s, hs, hes⟩ := mem_runLoop he
  unfold stepTrace at hes
  cases herr : (executeStep handle s (r s) b).2 with
  | none =>
    rw [herr] at hes
    rcases mem_executeStep hes with h1 | h2 | ⟨t, res, h3, hk⟩
    · rw [h1] at hch; exact absurd hch (by simp [startEvent])
    · rw [h2] at hch; exact absurd hch (by simp [completeEvent])
    · exact ⟨t, res, s, h3, hk⟩
  | some err =>
    rw [herr] at hes
    rcases List.mem_append.mp hes with h1 | h2
    · rcases mem_executeStep h1 with h3 | h4 | ⟨t, res, h5, hk⟩
      · rw [h3] at hch; exact absurd hch (by simp [startEvent])
      · rw [h4] at hch; exact absurd hch (by simp [completeEvent])
      · exact ⟨t, res, s, h5, hk⟩
    · rw [List.mem_singleton] at h2
      rw [h2] at hch
      exact absurd hch (by simp [alertEvent])

/-- Claim C2: when a step's planning payload contains an action whose tool
name is unrecognized (not `run_command`, `read_file` or `apply_patch`),
the drain loop publishes exactly one `alert` event for that step —
carrying the step name and error text — publishes no `artifact` event for
that action (every artifact's tool is a recognized one), and keeps
draining: every subsequently queued step still executes. -/
theorem claim_C2 (handle : String) (respFn : WorkflowStep → List ModelMessage)
    (bridge : BridgeFn) (pre post : List WorkflowStep) (S : WorkflowStep)
    (hnodup : ((pre ++ S :: post).map WorkflowStep.name).Nodup)
    (acts : List Json) (hacts : parseActions (respFn S) = .ok acts)
    (a : Json) (ha : a ∈ acts) (tn : String) (htn : actionToolName a = some tn)
    (h1 : tn ≠ "run_command") (h2 : tn ≠ "read_file") (h3 : tn ≠ "apply_patch") :
    (∃ err, (runLoop handle respFn bridge (pre ++ S :: post)).filter
        (isAlertForStep S.name) = [alertEvent handle S err]) ∧
    (∀ e ∈ runLoop handle respFn bridge (pre ++ S :: post),
      e.channel = Channel.artifact → dictGet e.payload "tool" ≠ some (.str tn)) ∧
    ∀ s ∈ post, startEvent handle s ∈ runLoop handle respFn bridge (pre ++ S :: post) := by
  obtain ⟨hpre, hpost⟩ := nodup_names_split hnodup
  obtain ⟨err, herr2⟩ :=
    @execActions_err handle S bridge acts a tn ha htn h1 h2 h3
  have herr : (executeStep handle S (respFn S) bridge).2 = some err :=
    (executeStep_snd hacts).trans herr2
  refine ⟨⟨err, ?_⟩, ?_, ?_⟩
  · rw [runLoop_append handle respFn bridge pre (S :: post)]
    rw [show runLoop handle respFn bridge (S :: post) =
      stepTrace handle respFn bridge S ++ runLoop handle respFn bridge post from rfl]
    rw [List.filter_append, List.filter_append,
      filter_alert_runLoop_nil hpre, filter_alert_runLoop_nil hpost,
      filter_alert_stepTrace_of_err herr]
    rfl
  · intro e he hch heq
    obtain ⟨t, res, s2, he2, hk⟩ := artifact_tool_known he hch
    rw [he2, dictGet_artifactEvent_tool] at heq
    have : t = tn := Json.str.inj (Option.some.inj heq)
    subst this
    rcases hk with hk | hk | hk
    · exact h1 hk
    · exact h2 hk
    · exact h3 hk
  · intro s hs
    exact startEvent_mem_runLoop s (List.mem_append_right _ (List.mem_cons_of_mem _ hs))

theorem claim_C2_witness :
    (∃ err, (runLoop "w" respUnknownTool bridgeInert [stepOne, stepTwo]).filter
        (isAlertForStep "s1") = [alertEvent "w" stepOne err]) ∧
    startEvent "w" stepTwo ∈ runLoop "w" respUnknownTool bridgeInert [stepOne, stepTwo] := by
  have hmain := claim_C2 "w" respUnknownTool bridgeInert [] [stepTwo] stepOne (by decide)
    [Json.obj [("tool", .str "delete_universe")]] rfl
    (Json.obj [("tool", .str "delete_universe")]) (List.mem_singleton.mpr rfl)
    "delete_universe" rfl (by decide) (by decide) (by decide)
  exact ⟨hmain.1, hmain.2.2 stepTwo (List.mem_singleton.mpr rfl)⟩

theorem index_cross {α : Type} {L : List α} {P Q : α → Prop}
    (hsep : ∃ A B, L = A ++ B ∧ (∀ e ∈ A, ¬ P e) ∧ (∀ e ∈ B, ¬ Q e)) :
    ∀ i j (hi : i < L.length) (hj : j < L.length),
      P (L.get ⟨i, hi⟩) → Q (L.get ⟨j, hj⟩) → j < i := by
  obtain ⟨A, B, hL, hA, hB⟩ := hsep
  subst hL
  intro i j hi hj hP hQ
  have hge : A.length ≤ i := by
    by_contra hlt
    push_neg at hlt
    rw [List.get_append i hlt] at hP
    exact hA _ (List.get_mem ..) hP
  have hjlt : j < A.length := by
    by_contra hge2
    push_neg at hge2
    have hjb : j - A.length < B.length := by
      rw [List.length_append] at hj
      omega
    rw [@List.get_append_right _ j A B hge2 hj hjb] at hQ
    exact hB _ (List.get_mem B (j - A.length) hjb) hQ
  omega

theorem stepTrace_no_startOf {h : String} {r : WorkflowStep → List ModelMessage}
    {b : BridgeFn} {steps : List WorkflowStep} {name : String}
    (hname : ∀ s ∈ steps, s.name ≠ name) :
    ∀ e ∈ runLoop h r b steps, ¬ isStartOf name e := by
  intro e he hP
  obtain ⟨s, hs, hes⟩ := mem_runLoop he
  have hf := stepField_of_mem_stepTrace hes
  obtain ⟨-, -, hstep⟩ := hP
  rw [hf] at hstep
  exact hname s hs (Json.str.inj (Option.some.inj hstep))

theorem stepTrace_no_completeOf {h : String} {r : WorkflowStep → List ModelMessage}
    {b : BridgeFn} {steps : List WorkflowStep} {name : String}
    (hname : ∀ s ∈ steps, s.name ≠ name) :
    ∀ e ∈ runLoop h r b steps, ¬ isCompleteOf name e := by
  intro e he hQ
  obtain ⟨s, hs, hes⟩ := mem_runLoop he
  have hf := stepField_of_mem_stepTrace hes
  obtain ⟨-, -, hstep⟩ := hQ
  rw [hf] at hstep
  exact hname s hs (Json.str.inj (Option.some.inj hstep))

theorem nodup_names_four {pre mid post : List WorkflowStep} {S1 S2 : WorkflowStep}
    (h : ((pre ++ S1 :: mid ++ S2 :: post).map WorkflowStep.name).Nodup) :
    (∀ s ∈ pre ++ [S1], s.name ≠ S2.name) ∧
    (∀ s ∈ mid ++ S2 :: post, s.name ≠ S1.name) := by
  have hsplit : pre ++ S1 :: mid ++ S2 :: post =
      (pre ++ [S1]) ++ (mid ++ S2 :: post) := by simp
  rw [hsplit, List.map_append, List.nodup_append] at h
  obtain ⟨-, -, hdisj⟩ := h
  constructor
  · intro s hs heq
    refine hdisj (List.mem_map_of_mem _ hs) ?_
    rw [heq]
    exact List.mem_map_of_mem _ (List.mem_append_right _ (List.mem_cons_self ..))
  · intro s hs heq
    refine @hdisj S1.name ?_ ?_
    · exact List.mem_map_of_mem _
        (List.mem_append_right _ (List.mem_singleton.mpr rfl))
    · rw [← heq]
      exact List.mem_map_of_mem _ hs

/-- Claim C3: for one Worker draining its queue, if steps S1 and S2 are
enqueued in that order (steps carrying pairwise distinct names), then no
occurrence of S2's `step_start` status event precedes an occurrence of
S1's `step_complete` status event in the published trace. -/
theorem claim_C3 (handle : String) (respFn : WorkflowStep → List ModelMessage)
    (bridge : BridgeFn) (pre mid post : List WorkflowStep) (S1 S2 : WorkflowStep)
    (hnodup : ((pre ++ S1 :: mid ++ S2 :: post).map WorkflowStep.name).Nodup)
    (i j : Nat)
    (hi : i < (runLoop handle respFn bridge (pre ++ S1 :: mid ++ S2 :: post)).length)
    (hj : j < (runLoop handle respFn bridge (pre ++ S1 :: mid ++ S2 :: post)).length)
    (hP : isStartOf S2.name
      ((runLoop handle respFn bridge (pre ++ S1 :: mid ++ S2 :: post)).get ⟨i, hi⟩))
    (hQ : isCompleteOf S1.name
      ((runLoop handle respFn bridge (pre ++ S1 :: mid ++ S2 :: post)).get ⟨j, hj⟩)) :
    j < i := by
  obtain ⟨hfirst, hsecond⟩ := nodup_names_four hnodup
  refine index_cross ?_ i j hi hj hP hQ
  refine ⟨runLoop handle respFn bridge (pre ++ [S1]),
    runLoop handle respFn bridge (mid ++ S2 :: post), ?_, ?_, ?_⟩
  · rw [← runLoop_append]
    congr 1
    simp
  · exact stepTrace_no_startOf hfirst
  · exact stepTrace_no_completeOf hsecond

theorem claim_C3_witness : (1 : Nat) < 2 :=
  claim_C3 "w" respEmpty bridgeInert [] [] [] stepOne stepTwo (by decide) 2 1
    (by decide) (by decide) ⟨rfl, rfl, rfl⟩ ⟨rfl, rfl, rfl⟩
